import Mathlib

/-!
Shallow embedding of the live-auction bid-processing core
(`src/live_auction_bidding`): the per-auction Redis bid queue, the
distributed auction lock, the read-through cache invalidation, the
pub/sub fanout bookkeeping, and the worker loop that validates and
commits bids (`worker/bid_worker.py`).

Conventions of the embedding:
* Redis string keys/values are Lean `String`s; the key-value store is a
  function `String → Option String` (or typed stores where the stored
  value is structured JSON in the source).
* Monetary amounts (Python floats holding prices) are `Int`; the claims
  only involve exact integral arithmetic.
* Timestamps (`datetime.now()`, Redis TTLs) are `Nat` instants; a Redis
  entry written with TTL `t` at instant `now` carries expiry `now + t`
  and is gone once the current instant reaches it.
* Non-determinism of the distributed lock (whether `SET NX` succeeds at
  a given attempt) is an oracle `Nat → Bool` giving each attempt's
  outcome.
-/

namespace AuctionSys

/-- Source `app/models/auction.py`: `AuctionStatus` enum. -/
inductive AuctionStatus where
  | ACTIVE
  | ENDED
  | CANCELLED
deriving DecidableEq, Repr

/-- Source `app/models/auction.py`: the auction row (columns the core
reads/writes; presentation-only columns such as title are omitted). -/
structure Auction where
  auction_id : Nat
  starting_price : Int
  current_price : Int
  min_increment : Int
  end_time : Nat
  status : AuctionStatus
  current_winner_id : Option Nat
  total_bids : Nat
deriving DecidableEq, Repr

/-- Source `app/models/bid.py`: the immutable bid record inserted on an
accepted bid. -/
structure Bid where
  auction_id : Nat
  user_id : Nat
  bid_amount : Int
  previous_price : Int
deriving DecidableEq, Repr

/-- Request status as stored in `bid_meta` (`queue.py`): the worker only
ever writes `SUCCESS`/`REJECTED`; `enqueue_bid` writes `QUEUED`. -/
inductive BidStatus where
  | QUEUED
  | SUCCESS
  | REJECTED
deriving DecidableEq, Repr

/-- Source `queue.py` `enqueue_bid`: the bid payload pushed on the list and
stored under `bid_meta:{bid_id}`. -/
structure BidData where
  bid_id : String
  auction_id : Nat
  user_id : Nat
  bid_amount : Int
  timestamp : Nat
  status : BidStatus
deriving DecidableEq, Repr

/-! ## Redis key-value model -/

/-- The string-valued part of Redis (lock keys, cache entries). -/
def KV : Type := String → Option String

/-- Redis `GET key`. -/
def rget (kv : KV) (k : String) : Option String := kv k

/-- Redis `DEL key`. -/
def rdel (kv : KV) (k : String) : KV :=
  fun k' => if k' = k then none else kv k'

/-- Redis `SET key value` (expiry not tracked for cache entries; the claims
under study do not depend on cache TTLs). -/
def rset (kv : KV) (k v : String) : KV :=
  fun k' => if k' = k then some v else kv k'

/-! ## Distributed lock (`app/infrastructure/lock.py`) -/

/-- Source `AuctionLock.max_retries`. -/
def max_retries : Nat := 10

/-- Source `AuctionLock.acquire`: up to `max_retries` attempts of
`SET lock_key request_id NX PX`; the oracle `avail` says whether the
`NX` set succeeds at attempt `i` (i.e. whether no other holder owns the
key then).  Returns the attempt index at which the lock was taken —
the `retry_count` the source returns — or `none` for the
`TimeoutError("Could not acquire lock for auction ...")` raised after
exhausting all attempts. -/
def acquire (avail : Nat → Bool) : Option Nat :=
  (List.range max_retries).find? (fun i => avail i)

/-- Source `AuctionLock.unlock_script` (Lua): `GET` the key; if it equals the
caller's token, `DEL` it (returning 1), else leave the store untouched
(returning 0). -/
def eval_unlock_script (kv : KV) (lockKey token : String) : KV × Nat :=
  if rget kv lockKey = some token then (rdel kv lockKey, 1) else (kv, 0)

/-- Source `AuctionLock.release`: runs the unlock script; the script's return
value is discarded. -/
def release (kv : KV) (lock_key request_id : String) : KV :=
  (eval_unlock_script kv lock_key request_id).1

/-! ## Bid queue (`app/infrastructure/queue.py`) -/

/-- Redis `LPUSH`: push on the left/head of the Redis list. -/
def lpush (x : α) (q : List α) : List α := x :: q

/-- Redis `BRPOP` (ignoring the blocking wait): pop from the right/tail of
the list, `none` when the list stays empty past the timeout. -/
def brpop : List α → Option (α × List α)
  | [] => none
  | x :: xs =>
    match brpop xs with
    | none => some (x, [])
    | some (y, rest) => some (y, x :: rest)

/-- Source `settings.BID_QUEUE_TTL` (`core/config.py`): 600 seconds. -/
def BID_QUEUE_TTL : Nat := 600

/-- Stored value of a `bid_meta:{bid_id}` key: the enqueued payload plus
the optional `result` field added by `update_bid_status`. -/
structure BidMeta (R : Type) where
  data : BidData
  result : Option R
deriving DecidableEq, Repr

/-- Typed Redis store for `bid_meta:*` keys: value plus absolute expiry
instant (written by `SETEX`). -/
def MetaStore (R : Type) : Type := String → Option (BidMeta R × Nat)

/-- Redis `SETEX key ttl value` at instant `now`. -/
def msetex (ms : MetaStore R) (now : Nat) (k : String) (v : BidMeta R)
    (ttl : Nat) : MetaStore R :=
  fun k' => if k' = k then some (v, now + ttl) else ms k'

/-- Read a `bid_meta` key at instant `now`: an entry whose expiry has
been reached is gone. -/
def mget (ms : MetaStore R) (now : Nat) (k : String) : Option (BidMeta R) :=
  match ms k with
  | none => none
  | some (v, expireAt) => if now < expireAt then some v else none

/-- Source `BidQueue.get_bid_status`: `GET bid_meta:{bid_id}`, `none` when the
entry expired or never existed. -/
def get_bid_status (ms : MetaStore R) (now : Nat) (bid_id : String) :
    Option (BidMeta R) :=
  mget ms now ("bid_meta:" ++ bid_id)

/-- Source `BidQueue.update_bid_status`: read the current metadata; when
present, overwrite its status, set `result` when one is supplied, and
`SETEX` it back with a fresh TTL.  When the entry expired or never
existed, nothing is written. -/
def update_bid_status (ms : MetaStore R) (now : Nat) (bid_id : String)
    (status : BidStatus) (result : Option R) : MetaStore R :=
  match get_bid_status ms now bid_id with
  | none => ms
  | some meta =>
    let meta' : BidMeta R :=
      { data := { meta.data with status := status }
        result := match result with
                  | some r => some r
                  | none => meta.result }
    msetex ms now ("bid_meta:" ++ bid_id) meta' BID_QUEUE_TTL

/-- Source `BidQueue.enqueue_bid`: build the payload (status `QUEUED`), `LPUSH`
it on `bid_queue:{auction_id}`, and `SETEX` the metadata under
`bid_meta:{bid_id}`.  The `uuid4` bid id is supplied by the caller as
`freshId` (the source draws it at random; the embedding takes it from
the environment). -/
def enqueue_bid (q : List BidData) (ms : MetaStore R) (now : Nat)
    (freshId : String) (auction_id user_id : Nat) (bid_amount : Int) :
    List BidData × MetaStore R × String :=
  let bd : BidData :=
    { bid_id := freshId
      auction_id := auction_id
      user_id := user_id
      bid_amount := bid_amount
      timestamp := now
      status := .QUEUED }
  (lpush bd q,
   msetex ms now ("bid_meta:" ++ freshId) ⟨bd, none⟩ BID_QUEUE_TTL,
   freshId)

/-- Source `BidQueue.dequeue_bid`: `BRPOP` on `bid_queue:{auction_id}`. -/
def dequeue_bid (q : List BidData) : Option (BidData × List BidData) :=
  brpop q

/-! ## Authoritative store (SQL database seen through the ORM) -/

/-- The database: the `auctions` table as a map from primary key to row,
and the `bids` table as the list of inserted records in insertion
order. -/
structure DB where
  auctions : Nat → Option Auction
  bids : List Bid

/-- Lookup `db.query(Auction).filter(Auction.auction_id == id).first()`. -/
def fetchAuction (db : DB) (aid : Nat) : Option Auction := db.auctions aid

/-- Committing an in-place mutation of the fetched ORM row: replaces the
row stored under its primary key. -/
def setAuction (db : DB) (a : Auction) : DB :=
  { db with auctions := fun i => if i = a.auction_id then some a else db.auctions i }

/-- Insert `db.add(bid); db.commit()`: append the new record to the `bids`
table. -/
def insertBid (db : DB) (b : Bid) : DB :=
  { db with bids := db.bids ++ [b] }

/-- The `bids` rows of one auction
(`db.query(Bid).filter(Bid.auction_id == auction_id)`), in insertion
order. -/
def bidsFor (db : DB) (aid : Nat) : List Bid :=
  db.bids.filter (fun b => b.auction_id = aid)

/-! ## Cache invalidation
(`cache/base_cache.py`, `cache/cache_manager.py`, `cache/auction_cache.py`) -/

/-- Source `BaseCache._make_key`: `"{prefix}:{entity_id}"`. -/
def make_key (pfx : String) (entity_id : Nat) : String :=
  pfx ++ ":" ++ toString entity_id

/-- Source `BaseCache.invalidate`: `DEL` the entity's cache key. -/
def cache_invalidate (kv : KV) (pfx : String) (entity_id : Nat) : KV :=
  rdel kv (make_key pfx entity_id)

/-- Source `BaseCache.invalidate_many`: one `DEL` of every listed entity's key
(modelled as iterated single-key deletes, which Redis `DEL k1 k2 ...`
is equivalent to). -/
def cache_invalidate_many (kv : KV) (pfx : String) (entity_ids : List Nat) : KV :=
  entity_ids.foldl (fun acc eid => rdel acc (make_key pfx eid)) kv

/-- Does `k` match the pattern `auction_bids:{auction_id}:*`? -/
def bid_list_key_matches (auction_id : Nat) (k : String) : Bool :=
  ("auction_bids:" ++ toString auction_id ++ ":").isPrefixOf k

/-- Source `CacheManager.invalidate_auction_with_bids`: invalidate the auction
entry (`AuctionCache` uses prefix `"auction"`), then `KEYS
auction_bids:{id}:*` followed by `DEL` of every match. -/
def invalidate_auction_with_bids (kv : KV) (auction_id : Nat) : KV :=
  fun k =>
    if bid_list_key_matches auction_id k then none
    else cache_invalidate kv "auction" auction_id k

/-! ## The worker (`worker/bid_worker.py`) -/

/-- The exceptions `BidWorker.process_bid` raises, one per `raise`
site (the source raises `Exception(message)`; the constructor carries
the data interpolated into the message). -/
inductive BidError where
  /-- `"Auction not found"` -/
  | auctionNotFound
  /-- `"Auction is {status}"` -/
  | auctionNotActive (status : AuctionStatus)
  /-- `"Auction has ended"` -/
  | auctionEnded
  /-- `"You are already the highest bidder"` -/
  | alreadyHighestBidder
  /-- `"Bid must be at least ${required_bid}"` -/
  | bidTooLow (required_bid : Int)
deriving DecidableEq, Repr

/-- The dict `process_bid` returns on success. -/
structure BidResult where
  bid : Bid
  auction : Auction
  old_winner : Option Nat
deriving DecidableEq, Repr

/-- Any exception the `except` block of `process_auction_queue` can
catch: a validation failure from `process_bid`, the `TimeoutError`
from `AuctionLock.acquire`, or the `AttributeError` raised by the
cache-invalidation call after a successful commit. -/
inductive WorkerError where
  | bidError (e : BidError)
  /-- `TimeoutError("Could not acquire lock for auction {auction_id}")` -/
  | lockTimeout (auction_id : Nat)
  /-- `AttributeError` from `bid_worker.py:179`: the worker's
  `self.cache` is an `AuctionCache` (`bid_worker.py:50`), and
  `invalidate_auction_with_bids` is defined only on `CacheManager`
  (`cache_manager.py:89`), so the attribute lookup fails. -/
  | cacheAttributeError
deriving DecidableEq, Repr

/-- The `result` payload `update_bid_status` stores: the success dict
(`bid_worker.py:183` — in practice never reached, since the
cache-invalidation call on the line before it raises), or
`{"error": str(e)}` on rejection. -/
inductive StatusResult where
  | success (r : BidResult)
  | failure (error : WorkerError)
deriving DecidableEq, Repr

/-- Source `BidWorker.process_bid` at instant `now`: fetch the auction row
fresh from the database, run the validation chain, and on success
commit the row update and insert the bid record.  Returns the database
after the call together with the outcome (`Except.error` = the raised
exception).  Note the expired-auction branch commits `status = ENDED`
before raising. -/
def process_bid (db : DB) (now : Nat) (bd : BidData) :
    DB × Except BidError BidResult :=
  match fetchAuction db bd.auction_id with
  | none => (db, .error .auctionNotFound)
  | some auction =>
    if auction.status ≠ .ACTIVE then
      (db, .error (.auctionNotActive auction.status))
    else if auction.end_time < now then
      (setAuction db { auction with status := .ENDED }, .error .auctionEnded)
    else if auction.current_winner_id = some bd.user_id then
      (db, .error .alreadyHighestBidder)
    else
      let required_bid := auction.current_price + auction.min_increment
      if bd.bid_amount < required_bid then
        (db, .error (.bidTooLow required_bid))
      else
        let old_price := auction.current_price
        let old_winner := auction.current_winner_id
        let auction' := { auction with
          current_price := bd.bid_amount
          current_winner_id := some bd.user_id
          total_bids := auction.total_bids + 1 }
        let bid : Bid := { auction_id := bd.auction_id
                           user_id := bd.user_id
                           bid_amount := bd.bid_amount
                           previous_price := old_price }
        (insertBid (setAuction db auction') bid,
         .ok { bid := bid, auction := auction', old_winner := old_winner })

/-- The shared state the worker loop body touches: the database, the
`bid_meta` status store, the cache keyspace, and the log of messages
published on the auction's pub/sub channel. -/
structure SysState where
  db : DB
  meta : MetaStore StatusResult
  cache : KV
  published : List (Nat × BidResult)

/-- One iteration of the body of `BidWorker.process_auction_queue`
after a successful dequeue of `bd`, given the lock-acquisition outcome
`lock` (`some retryCount`, or `none` for the `TimeoutError`):

* lock acquired and `process_bid` succeeds — the database commit
  stands, but the very next statement,
  `self.cache.invalidate_auction_with_bids(auction_id, db)`
  (`bid_worker.py:179`), raises `AttributeError`: `self.cache` is an
  `AuctionCache` (`bid_worker.py:50`) and only `CacheManager` defines
  that method, so the `except` handler records `REJECTED` with that
  error — no cache key is deleted, `SUCCESS` is never recorded, and
  nothing is published;
* lock acquired but `process_bid` raises — the exception leaves the
  `with` block (which releases the lock) and the `except` handler
  records `REJECTED` with `{"error": str(e)}`;
* lock acquisition times out — the `TimeoutError` is caught by the same
  `except` handler, which records `REJECTED` with the timeout message.
-/
def workerStep (st : SysState) (now : Nat) (bd : BidData)
    (lock : Option Nat) : SysState :=
  match lock with
  | none =>
    { st with
      meta := update_bid_status st.meta now bd.bid_id .REJECTED
        (some (.failure (.lockTimeout bd.auction_id))) }
  | some _ =>
    match process_bid st.db now bd with
    | (db', .ok _) =>
      { st with
        db := db'
        meta := update_bid_status st.meta now bd.bid_id .REJECTED
          (some (.failure .cacheAttributeError)) }
    | (db', .error e) =>
      { st with
        db := db'
        meta := update_bid_status st.meta now bd.bid_id .REJECTED
          (some (.failure (.bidError e))) }

/-- One dequeued request together with the instant it is processed at
and its lock-acquisition outcome. -/
structure WStep where
  now : Nat
  bd : BidData
  lock : Option Nat

/-- A run of worker iterations. -/
def runWorker (st : SysState) (steps : List WStep) : SysState :=
  steps.foldl (fun s stp => workerStep s stp.now stp.bd stp.lock) st

/-! ## Pub/Sub fanout manager (`app/infrastructure/pubsub.py`)

`PubSubManager` keeps `active_connections : Dict[int, Set[WebSocket]]`
and `subscriptions : Set[str]` of channel names.  Channel names
`"auction:{id}"` are in bijection with auction ids, so the subscription
set is modelled as a `Finset` of auction ids; WebSocket objects are
modelled as `Nat` identifiers.  The `asyncio.create_task` around
`unsubscribe_from_auction` in `remove_connection` is modelled as the
unsubscribe running to completion. -/

/-- The per-process fanout state: `dom` is the key set of the
`active_connections` dict, `conns` its value at each key (`∅` off
`dom`), `subs` the set of subscribed auction channels. -/
structure PubSubState where
  dom : Finset Nat
  conns : Nat → Finset Nat
  subs : Finset Nat

/-- Fresh manager: no connections, no subscriptions. -/
def PubSubState.init : PubSubState :=
  { dom := ∅, conns := fun _ => ∅, subs := ∅ }

/-- Source `PubSubManager.subscribe_to_auction`: subscribe to the channel
unless already subscribed. -/
def subscribe_to_auction (st : PubSubState) (aid : Nat) : PubSubState :=
  if aid ∈ st.subs then st else { st with subs := insert aid st.subs }

/-- Source `PubSubManager.unsubscribe_from_auction`: unsubscribe from the
channel when subscribed. -/
def unsubscribe_from_auction (st : PubSubState) (aid : Nat) : PubSubState :=
  if aid ∈ st.subs then { st with subs := st.subs.erase aid } else st

/-- Source `PubSubManager.add_connection`: create the dict entry when absent
(an empty set to which the WebSocket is then added), add the WebSocket
to the auction's set, then subscribe to the auction's channel. -/
def add_connection (st : PubSubState) (ws aid : Nat) : PubSubState :=
  if aid ∈ st.dom then
    subscribe_to_auction
      { st with
        conns := Function.update st.conns aid (insert ws (st.conns aid)) } aid
  else
    subscribe_to_auction
      { st with
        dom := insert aid st.dom
        conns := Function.update st.conns aid (insert ws ∅) } aid

/-- Source `PubSubManager.remove_connection`: when the auction has a dict
entry, discard the WebSocket; when its set becomes empty, delete the
entry and unsubscribe from the channel. -/
def remove_connection (st : PubSubState) (ws aid : Nat) : PubSubState :=
  if aid ∈ st.dom then
    if (st.conns aid).erase ws = ∅ then
      unsubscribe_from_auction
        { st with dom := st.dom.erase aid
                  conns := Function.update st.conns aid ∅ } aid
    else
      { st with conns := Function.update st.conns aid ((st.conns aid).erase ws) }
  else st

/-- The local-observer operations the delivery layer drives. -/
inductive PSOp where
  | add (ws aid : Nat)
  | remove (ws aid : Nat)

/-- Apply one operation. -/
def psStep (st : PubSubState) : PSOp → PubSubState
  | .add ws aid => add_connection st ws aid
  | .remove ws aid => remove_connection st ws aid

/-- Run a sequence of add/remove operations from the fresh manager. -/
def psRun (ops : List PSOp) : PubSubState :=
  ops.foldl psStep PubSubState.init

/-- Witness `ws` is a registered local observer of auction `aid`: the dict has
an entry for `aid` containing `ws`. -/
def registered (st : PubSubState) (ws aid : Nat) : Prop :=
  aid ∈ st.dom ∧ ws ∈ st.conns aid

/-- Internal invariant of `PubSubManager` maintained by
`add_connection`/`remove_connection`: dict entries are never empty sets
(`remove_connection` deletes an entry as soon as it empties, and
`add_connection` populates a fresh entry immediately), and the
subscription set tracks exactly the dict's key set. -/
def PSInv (st : PubSubState) : Prop :=
  (∀ aid, aid ∈ st.dom → st.conns aid ≠ ∅) ∧
  (∀ aid, aid ∉ st.dom → st.conns aid = ∅) ∧
  (∀ aid, aid ∈ st.subs ↔ aid ∈ st.dom)

/-! ## Derived queue-draining helpers -/

/-- A producer's enqueue sequence: each payload is `LPUSH`ed in order
(the queue effect of successive `enqueue_bid` calls). -/
def enqueue_all (q : List BidData) (bds : List BidData) : List BidData :=
  bds.foldl (fun acc bd => lpush bd acc) q

/-- Perform `n` successive `dequeue_bid` pops, collecting the returned payloads
in dequeue order (stopping early on an empty queue). -/
def dequeue_all : Nat → List BidData → List BidData
  | 0, _ => []
  | n + 1, q =>
    match dequeue_bid q with
    | none => []
    | some (bd, rest) => bd :: dequeue_all n rest

/-! ## Database well-formedness and the bid-count/price invariant -/

/-- Rows are stored under their own primary key. -/
def WFDB (db : DB) : Prop :=
  ∀ i a, db.auctions i = some a → a.auction_id = i

/-- The amount of the most recently inserted record, or `p0` when no
record exists. -/
def lastAmount (l : List Bid) (p0 : Int) : Int :=
  match l.getLast? with
  | some b => b.bid_amount
  | none => p0

/-- The §3 invariant for auction `aid` whose initial current price was
`p0`: the number of its bid records equals its `total_bids` counter and
its `current_price` is the most recent record's amount (or `p0`). -/
def priceInvariant (db : DB) (aid : Nat) (p0 : Int) : Prop :=
  WFDB db ∧
  ∀ a, db.auctions aid = some a →
    (bidsFor db aid).length = a.total_bids ∧
    a.current_price = lastAmount (bidsFor db aid) p0

/-! ## Concrete states for the scenario claims -/

/-- Empty Redis keyspace. -/
def emptyKV : KV := fun _ => none

/-- Empty `bid_meta` keyspace. -/
def emptyMeta : MetaStore StatusResult := fun _ => none

/-- Scenario A's auction: current price 100, minimum increment 10,
active, not yet ended, led by user 5. -/
def auctionA : Auction :=
  { auction_id := 1
    starting_price := 100
    current_price := 100
    min_increment := 10
    end_time := 1000
    status := .ACTIVE
    current_winner_id := some 5
    total_bids := 0 }

/-- Database holding only `auctionA`, with no bid records. -/
def dbA : DB :=
  { auctions := fun i => if i = 1 then some auctionA else none
    bids := [] }

/-- First enqueue of the scenario: user 7 bids 105 (request id `r1`). -/
def enqA1 : List BidData × MetaStore StatusResult × String :=
  enqueue_bid [] emptyMeta 0 "r1" 1 7 105

/-- Second enqueue: user 7 bids 110 (request id `r2`). -/
def enqA2 : List BidData × MetaStore StatusResult × String :=
  enqueue_bid enqA1.1 enqA1.2.1 0 "r2" 1 7 110

/-- The payload `enqueue_bid` built for request `r1`. -/
def bdA1 : BidData :=
  { bid_id := "r1", auction_id := 1, user_id := 7, bid_amount := 105
    timestamp := 0, status := .QUEUED }

/-- The payload `enqueue_bid` built for request `r2`. -/
def bdA2 : BidData :=
  { bid_id := "r2", auction_id := 1, user_id := 7, bid_amount := 110
    timestamp := 0, status := .QUEUED }

/-- System state after both enqueues of Scenario A. -/
def stA : SysState :=
  { db := dbA, meta := enqA2.2.1, cache := emptyKV, published := [] }

/-- An auction whose end time (instant 100) has already passed. -/
def auctionExp : Auction :=
  { auction_id := 2
    starting_price := 50
    current_price := 50
    min_increment := 5
    end_time := 100
    status := .ACTIVE
    current_winner_id := none
    total_bids := 0 }

/-- Database holding only the expired-but-still-ACTIVE auction. -/
def dbExp : DB :=
  { auctions := fun i => if i = 2 then some auctionExp else none
    bids := [] }

/-- A queued request against the expired auction: user 9 bids 60. -/
def bdExp : BidData :=
  { bid_id := "r3", auction_id := 2, user_id := 9, bid_amount := 60
    timestamp := 150, status := .QUEUED }

/-- System state with request `r3` enqueued (metadata live). -/
def stExp : SysState :=
  { db := dbExp
    meta := msetex emptyMeta 150 "bid_meta:r3" ⟨bdExp, none⟩ BID_QUEUE_TTL
    cache := emptyKV
    published := [] }

/-- State after the worker processes request `r1` of Scenario A. -/
def stA1 : SysState := workerStep stA 10 bdA1 (some 0)

/-- State after the worker then processes request `r2`. -/
def stA2 : SysState := workerStep stA1 20 bdA2 (some 0)

/-- The auction row after Scenario A's accepted bid of 110. -/
def auctionA110 : Auction :=
  { auctionA with
    current_price := 110, current_winner_id := some 7, total_bids := 1 }

/-- A lock keyspace where auction 5's lock is held with token `tokA`. -/
def kvLock : KV :=
  fun k => if k = "auction:lock:5" then some "tokA" else none

/-- A cache keyspace with two auction entries and one bid entry. -/
def kvCache : KV :=
  fun k =>
    if k = "auction:1" then some "a1"
    else if k = "auction:2" then some "a2"
    else if k = "bid:7" then some "b7" else none

/-- A metadata store whose only entry (written at instant 0 with the
600-second TTL) has expired by instant 600. -/
def msTtl : MetaStore StatusResult :=
  msetex emptyMeta 0 "bid_meta:r9" ⟨bdExp, none⟩ BID_QUEUE_TTL

/-! # Theorems -/

/-- C4: the unlock script deletes the lock key exactly when the stored
value is the caller's token; on a stale or foreign token the whole
store — the current holder's entry included — is untouched, and in
either case no other key changes. -/
theorem release_owner_checked (kv : KV) (lock_key token : String) :
    (rget kv lock_key = some token →
      rget (release kv lock_key token) lock_key = none ∧
      ∀ k, k ≠ lock_key → rget (release kv lock_key token) k = rget kv k) ∧
    (rget kv lock_key ≠ some token → release kv lock_key token = kv) := by
  constructor
  · intro h
    have h' : kv lock_key = some token := h
    refine ⟨?_, fun k hk => ?_⟩
    · simp [release, eval_unlock_script, h', rdel, rget]
    · simp [release, eval_unlock_script, h', rdel, rget, hk]
  · intro h
    have h' : ¬ kv lock_key = some token := h
    simp [release, eval_unlock_script, rget, h']

/-- Witness for C4 on a concrete lock store: the owner token deletes
the entry; a foreign token leaves the store unchanged. -/
theorem release_owner_checked_witness :
    (rget kvLock "auction:lock:5" = some "tokA" ∧
      rget (release kvLock "auction:lock:5" "tokA") "auction:lock:5" = none) ∧
    (rget kvLock "auction:lock:5" ≠ some "tokB" ∧
      release kvLock "auction:lock:5" "tokB" = kvLock) :=
  ⟨⟨by decide,
    ((release_owner_checked kvLock "auction:lock:5" "tokA").1 (by decide)).1⟩,
   ⟨by decide,
    (release_owner_checked kvLock "auction:lock:5" "tokB").2 (by decide)⟩⟩

/-- C10: when a request's metadata has expired (or never existed),
`update_bid_status` writes nothing — the store is unchanged — and a
subsequent `get_bid_status` still returns nothing, so a terminal status
recorded after the TTL is silently lost. -/
theorem update_after_ttl_noop (ms : MetaStore StatusResult) (now : Nat)
    (bid_id : String) (status : BidStatus) (result : Option StatusResult)
    (h : get_bid_status ms now bid_id = none) :
    update_bid_status ms now bid_id status result = ms ∧
    get_bid_status (update_bid_status ms now bid_id status result) now bid_id
      = none := by
  have hu : update_bid_status ms now bid_id status result = ms := by
    unfold update_bid_status
    rw [h]
  exact ⟨hu, by rw [hu, h]⟩

/-- Witness for C10: a metadata entry written at instant 0 with the
600-second TTL is expired at instant 600; recording `SUCCESS` there is
a no-op and the status stays unreadable. -/
theorem update_after_ttl_noop_witness :
    get_bid_status msTtl 600 "r9" = none ∧
    (update_bid_status msTtl 600 "r9" .SUCCESS none = msTtl ∧
     get_bid_status (update_bid_status msTtl 600 "r9" .SUCCESS none) 600 "r9"
       = none) :=
  ⟨by decide, update_after_ttl_noop msTtl 600 "r9" .SUCCESS none (by decide)⟩

/-- Redis `BRPOP` pops the element at the right end of the list. -/
theorem brpop_concat (xs : List α) (x : α) :
    brpop (xs ++ [x]) = some (x, xs) := by
  induction xs with
  | nil => rfl
  | cons y ys ih => simp [brpop, ih]

/-- Draining a queue with as many `dequeue_bid` pops as it has elements
returns them oldest (rightmost) first. -/
theorem dequeue_all_eq_reverse (q : List BidData) :
    dequeue_all q.length q = q.reverse := by
  induction q using List.reverseRecOn with
  | nil => rfl
  | append_singleton xs x ih =>
    rw [List.length_append]
    simp only [List.length_singleton]
    rw [show xs.length + 1 = Nat.succ xs.length from rfl]
    unfold dequeue_all
    rw [show dequeue_bid (xs ++ [x]) = brpop (xs ++ [x]) from rfl,
        brpop_concat]
    simp [ih]

/-- Enqueueing payloads in order `LPUSH`es them in front of the
existing queue content. -/
theorem enqueue_all_eq (bds : List BidData) (q : List BidData) :
    enqueue_all q bds = bds.reverse ++ q := by
  induction bds generalizing q with
  | nil => rfl
  | cons b bs ih =>
    show enqueue_all (lpush b q) bs = _
    rw [ih]
    simp [lpush]

/-- C5: per-object FIFO — payloads enqueued in order `r1, ..., rn` by a
single producer (each an `LPUSH` at the head, as `enqueue_bid` does)
are returned by successive `dequeue_bid` pops (each a `BRPOP` from the
tail) after the queue's prior content, in exactly the order
`r1, ..., rn`. -/
theorem queue_fifo (q bds : List BidData) :
    dequeue_all (q.length + bds.length) (enqueue_all q bds)
      = q.reverse ++ bds := by
  rw [enqueue_all_eq]
  have hlen : (bds.reverse ++ q).length = q.length + bds.length := by
    simp [Nat.add_comm]
  rw [← hlen, dequeue_all_eq_reverse]
  simp

/-- The pointwise effect of `invalidate_many`: a key is deleted exactly
when it is one of the targeted keys; every other key keeps its old
value. -/
theorem cache_invalidate_many_apply (pfx : String) (eids : List Nat)
    (kv : KV) (k : String) :
    cache_invalidate_many kv pfx eids k =
      if eids.any (fun e => k == make_key pfx e) then none else kv k := by
  induction eids generalizing kv with
  | nil => simp [cache_invalidate_many]
  | cons e rest ih =>
    show cache_invalidate_many (rdel kv (make_key pfx e)) pfx rest k = _
    rw [ih]
    by_cases hk : k = make_key pfx e <;> simp [rdel, hk]

/-- C8: `invalidate` and `invalidate_many` delete exactly the targeted
cache entries: the targeted keys are gone afterwards, every other key
is unchanged, and no key is ever written (each key either keeps its
old value or is deleted). -/
theorem invalidate_only_deletes (kv : KV) (pfx : String) (eid : Nat)
    (eids : List Nat) :
    cache_invalidate kv pfx eid (make_key pfx eid) = none ∧
    (∀ k, k ≠ make_key pfx eid → cache_invalidate kv pfx eid k = kv k) ∧
    (∀ e, e ∈ eids →
      cache_invalidate_many kv pfx eids (make_key pfx e) = none) ∧
    (∀ k, (∀ e, e ∈ eids → k ≠ make_key pfx e) →
      cache_invalidate_many kv pfx eids k = kv k) ∧
    (∀ k, cache_invalidate_many kv pfx eids k = none ∨
      cache_invalidate_many kv pfx eids k = kv k) := by
  refine ⟨?_, fun k hk => ?_, fun e he => ?_, fun k hk => ?_, fun k => ?_⟩
  · simp [cache_invalidate, rdel]
  · simp [cache_invalidate, rdel, hk]
  · rw [cache_invalidate_many_apply]
    have : eids.any (fun e' => make_key pfx e == make_key pfx e') = true :=
      List.any_eq_true.2 ⟨e, he, by simp⟩
    simp [this]
  · rw [cache_invalidate_many_apply]
    have : eids.any (fun e => k == make_key pfx e) = false := by
      rw [List.any_eq_false]
      intro e he
      simpa using hk e he
    simp [this]
  · rw [cache_invalidate_many_apply]
    by_cases h : eids.any (fun e => k == make_key pfx e) <;> simp [h]

/-- Witness for C8 on a concrete cache store: invalidating auction 1
removes its entry and leaves the bid entry; batch-invalidating auctions
1 and 2 removes both and leaves the bid entry. -/
theorem invalidate_only_deletes_witness :
    kvCache (make_key "auction" 1) = some "a1" ∧
    cache_invalidate kvCache "auction" 1 (make_key "auction" 1) = none ∧
    cache_invalidate kvCache "auction" 1 "bid:7" = kvCache "bid:7" ∧
    cache_invalidate_many kvCache "auction" [1, 2] (make_key "auction" 2)
      = none ∧
    cache_invalidate_many kvCache "auction" [1, 2] "bid:7" = kvCache "bid:7" :=
  ⟨by decide,
   (invalidate_only_deletes kvCache "auction" 1 [1, 2]).1,
   (invalidate_only_deletes kvCache "auction" 1 [1, 2]).2.1 "bid:7" (by decide),
   (invalidate_only_deletes kvCache "auction" 1 [1, 2]).2.2.1 2 (by decide),
   (invalidate_only_deletes kvCache "auction" 1 [1, 2]).2.2.2.1 "bid:7"
     (by decide)⟩

/-- Case analysis on `process_bid`: it either raises leaving the
database untouched, or commits the expired-auction `ENDED` transition
and raises, or passes every validation and commits the bid. -/
theorem process_bid_cases (db : DB) (now : Nat) (bd : BidData) :
    ((process_bid db now bd).1 = db ∧
      ∃ e, (process_bid db now bd).2 = Except.error e) ∨
    (∃ a, fetchAuction db bd.auction_id = some a ∧ a.status = .ACTIVE ∧
      a.end_time < now ∧
      (process_bid db now bd).2 = Except.error .auctionEnded ∧
      (process_bid db now bd).1 = setAuction db { a with status := .ENDED }) ∨
    (∃ a, fetchAuction db bd.auction_id = some a ∧ a.status = .ACTIVE ∧
      ¬ a.end_time < now ∧ a.current_winner_id ≠ some bd.user_id ∧
      a.current_price + a.min_increment ≤ bd.bid_amount ∧
      (process_bid db now bd).2 = Except.ok
        ⟨{ auction_id := bd.auction_id, user_id := bd.user_id
           bid_amount := bd.bid_amount, previous_price := a.current_price },
         { a with current_price := bd.bid_amount
                  current_winner_id := some bd.user_id
                  total_bids := a.total_bids + 1 },
         a.current_winner_id⟩ ∧
      (process_bid db now bd).1 =
        insertBid
          (setAuction db
            { a with current_price := bd.bid_amount
                     current_winner_id := some bd.user_id
                     total_bids := a.total_bids + 1 })
          { auction_id := bd.auction_id, user_id := bd.user_id
            bid_amount := bd.bid_amount, previous_price := a.current_price }) := by
  rcases hf : fetchAuction db bd.auction_id with _ | a
  · exact Or.inl ⟨by simp [process_bid, hf], .auctionNotFound,
      by simp [process_bid, hf]⟩
  · by_cases hst : a.status = AuctionStatus.ACTIVE
    · by_cases hend : a.end_time < now
      · exact Or.inr (Or.inl ⟨a, rfl, hst, hend,
          by simp [process_bid, hf, hst, hend],
          by simp [process_bid, hf, hst, hend]⟩)
      · by_cases hw : a.current_winner_id = some bd.user_id
        · exact Or.inl ⟨by simp [process_bid, hf, hst, hend, hw],
            .alreadyHighestBidder,
            by simp [process_bid, hf, hst, hend, hw]⟩
        · by_cases hlow : bd.bid_amount < a.current_price + a.min_increment
          · exact Or.inl ⟨by simp [process_bid, hf, hst, hend, hw, hlow],
              .bidTooLow (a.current_price + a.min_increment),
              by simp [process_bid, hf, hst, hend, hw, hlow]⟩
          · exact Or.inr (Or.inr ⟨a, rfl, hst, hend, hw, le_of_not_lt hlow,
              by simp [process_bid, hf, hst, hend, hw, hlow],
              by simp [process_bid, hf, hst, hend, hw, hlow]⟩)
    · exact Or.inl ⟨by simp [process_bid, hf, hst],
        .auctionNotActive a.status, by simp [process_bid, hf, hst]⟩

/-- Updating a live request's status makes the new status and result
readable under the same request id. -/
theorem get_bid_status_update_self (ms : MetaStore R) (now : Nat)
    (bid_id : String) (s : BidStatus) (r : R) (m : BidMeta R)
    (h : get_bid_status ms now bid_id = some m) :
    get_bid_status (update_bid_status ms now bid_id s (some r)) now bid_id =
      some ⟨{ m.data with status := s }, some r⟩ := by
  unfold update_bid_status
  rw [h]
  simp [get_bid_status, mget, msetex, BID_QUEUE_TTL]

/-- C6 (per accepted commit): if the fetched row has a non-negative
minimum increment — auction creation (`auction_service.py`) rejects
`min_increment <= 0`, so every row the system creates satisfies this —
then an accepted bid never lowers the current price: the committed row
carries a price at least the old one. -/
theorem success_price_monotone (db : DB) (now : Nat) (bd : BidData)
    (a : Auction) (r : BidResult)
    (ha : fetchAuction db bd.auction_id = some a)
    (haid : a.auction_id = bd.auction_id)
    (hinc : 0 ≤ a.min_increment)
    (hok : (process_bid db now bd).2 = Except.ok r) :
    fetchAuction (process_bid db now bd).1 bd.auction_id = some r.auction ∧
    a.current_price ≤ r.auction.current_price := by
  rcases process_bid_cases db now bd with ⟨_, e, h2⟩ | ⟨a', _, _, _, h2, _⟩ |
    ⟨a', hf', _, _, _, hge, h2, h1⟩
  · rw [hok] at h2; cases h2
  · rw [hok] at h2; cases h2
  · rw [ha] at hf'
    cases hf'
    rw [hok] at h2
    cases h2
    constructor
    · rw [h1]
      simp [insertBid, setAuction, fetchAuction, haid]
    · simpa using le_trans (by linarith) hge

/-- Witness for C6: Scenario A's accepted bid of 110 on the row priced
100 with increment 10 leaves the committed price 110 ≥ 100. -/
theorem success_price_monotone_witness :
    fetchAuction dbA bdA2.auction_id = some auctionA ∧
    (fetchAuction (process_bid dbA 20 bdA2).1 bdA2.auction_id =
      some (BidResult.auction ⟨⟨1, 7, 110, 100⟩, auctionA110, some 5⟩) ∧
     auctionA.current_price ≤
      (BidResult.auction ⟨⟨1, 7, 110, 100⟩, auctionA110, some 5⟩).current_price) :=
  ⟨by decide,
   success_price_monotone dbA 20 bdA2 auctionA ⟨⟨1, 7, 110, 100⟩, auctionA110, some 5⟩
     (by decide) (by decide) (by decide) rfl⟩

/-- C7 (Scenario A): with the auction at price 100, increment 10, and a
submitter (user 7) who is not the leader (user 5), the queued bid of
105 is dequeued first and REJECTED with the reason that at least 110 is
required, changing no database row, no cache entry and publishing
nothing — as the claim says.  The boundary bid of exactly 110 passes
validation and is committed — the row's price becomes 110 and its
accepted-bid counter 1 — but, contrary to the claim, its recorded
status is not SUCCESS: the worker's cache-invalidation call raises
`AttributeError` and the `except` handler records REJECTED with that
error. -/
theorem scenarioA_success_never_recorded :
    dequeue_bid enqA2.1 = some (bdA1, [bdA2]) ∧
    stA1.db = stA.db ∧
    stA1.cache = stA.cache ∧
    stA1.published = stA.published ∧
    get_bid_status stA1.meta 10 "r1" =
      some ⟨{ bdA1 with status := .REJECTED },
            some (.failure (.bidError (.bidTooLow 110)))⟩ ∧
    (process_bid stA1.db 20 bdA2).2 =
      Except.ok ⟨⟨1, 7, 110, 100⟩, auctionA110, some 5⟩ ∧
    stA2.db.auctions 1 = some auctionA110 ∧
    stA2.db.bids = [⟨1, 7, 110, 100⟩] ∧
    get_bid_status stA2.meta 20 "r2" =
      some ⟨{ bdA2 with status := .REJECTED },
            some (.failure .cacheAttributeError)⟩ ∧
    stA2.cache = stA.cache ∧
    stA2.published = stA.published :=
  ⟨by decide, rfl, rfl, rfl, by decide, rfl, by decide, by decide,
   by decide, rfl, rfl⟩

/-- C1: `process_auction_queue`'s `except Exception` handler does not
distinguish the lock-acquisition `TimeoutError` from a validation
failure: when `acquire` exhausts its `max_retries` attempts (here the
oracle under which every `SET NX` finds the key held), the dequeued
request's recorded status IS set to REJECTED, with the timeout message
as the error payload — the outcome the specification says must never be
merged with REJECTED. -/
theorem lock_timeout_marked_rejected :
    acquire (fun _ => false) = none ∧
    get_bid_status (workerStep stA 10 bdA1 (acquire (fun _ => false))).meta
        10 "r1" =
      some ⟨{ bdA1 with status := .REJECTED },
            some (.failure (.lockTimeout 1))⟩ :=
  ⟨by decide, by decide⟩

/-- C2 counterexample: processing a request against an ACTIVE auction
whose end time has passed records REJECTED — yet the auction's row IS
mutated: its status is committed from ACTIVE to ENDED before the
rejection, so "the object's row ... unchanged by a rejected request"
fails. -/
theorem rejected_request_mutates_row :
    get_bid_status (workerStep stExp 200 bdExp (some 0)).meta 200 "r3" =
      some ⟨{ bdExp with status := .REJECTED },
            some (.failure (.bidError .auctionEnded))⟩ ∧
    stExp.db.auctions 2 = some auctionExp ∧
    auctionExp.status = .ACTIVE ∧
    (workerStep stExp 200 bdExp (some 0)).db.auctions 2 =
      some { auctionExp with status := .ENDED } ∧
    (workerStep stExp 200 bdExp (some 0)).db.auctions 2 ≠
      stExp.db.auctions 2 :=
  ⟨by decide, by decide, by decide, by decide, by decide⟩

/-- C2 (amended): a request that fails validation is recorded REJECTED
with the failing rule as its reason, inserts no bid record, touches no
cache entry and publishes nothing; the auction rows are also unchanged
— except that a validation failure on an expired ACTIVE auction commits
that row's transition to ENDED (and changes nothing else of it). -/
theorem rejected_request_no_side_effects (st : SysState) (now : Nat)
    (bd : BidData) (n : Nat) (e : BidError) (m : BidMeta StatusResult)
    (herr : (process_bid st.db now bd).2 = Except.error e)
    (hm : get_bid_status st.meta now bd.bid_id = some m) :
    get_bid_status (workerStep st now bd (some n)).meta now bd.bid_id =
      some ⟨{ m.data with status := .REJECTED },
            some (.failure (.bidError e))⟩ ∧
    (workerStep st now bd (some n)).db.bids = st.db.bids ∧
    (workerStep st now bd (some n)).cache = st.cache ∧
    (workerStep st now bd (some n)).published = st.published ∧
    ((workerStep st now bd (some n)).db = st.db ∨
      (e = .auctionEnded ∧ ∃ a, fetchAuction st.db bd.auction_id = some a ∧
        a.status = .ACTIVE ∧
        (workerStep st now bd (some n)).db =
          setAuction st.db { a with status := .ENDED })) := by
  rcases hpb : process_bid st.db now bd with ⟨db', res⟩
  have h2 : (process_bid st.db now bd).2 = res := by rw [hpb]
  have h1 : (process_bid st.db now bd).1 = db' := by rw [hpb]
  rw [h2] at herr
  subst herr
  have hw : workerStep st now bd (some n) =
      { st with db := db'
                meta := update_bid_status st.meta now bd.bid_id .REJECTED
                  (some (.failure (.bidError e))) } := by
    unfold workerStep
    rw [hpb]
  rw [hw]
  refine ⟨get_bid_status_update_self st.meta now bd.bid_id .REJECTED _ m hm,
    ?_, rfl, rfl, ?_⟩
  · rcases process_bid_cases st.db now bd with ⟨ha, _⟩ | ⟨a, _, _, _, _, ha⟩ |
      ⟨a, _, _, _, _, _, hok, _⟩
    · rw [h1] at ha
      rw [ha]
    · rw [h1] at ha
      rw [ha]
      rfl
    · rw [h2] at hok
      cases hok
  · rcases process_bid_cases st.db now bd with ⟨ha, _⟩ | ⟨a, hf, hst, _, he, ha⟩ |
      ⟨a, _, _, _, _, _, hok, _⟩
    · rw [h1] at ha
      rw [ha]
      exact Or.inl rfl
    · rw [h1] at ha
      rw [h2] at he
      cases he
      exact Or.inr ⟨rfl, a, hf, hst, by rw [ha]⟩
    · rw [h2] at hok
      cases hok

/-- Witness for C2's amended theorem: Scenario A's under-increment bid
of 105 is rejected with the minimum-bid reason and leaves the database,
cache and publish log untouched. -/
theorem rejected_request_no_side_effects_witness :
    (process_bid stA.db 10 bdA1).2 = Except.error (.bidTooLow 110) ∧
    get_bid_status stA.meta 10 "r1" = some ⟨bdA1, none⟩ ∧
    (get_bid_status (workerStep stA 10 bdA1 (some 0)).meta 10 "r1" =
      some ⟨{ bdA1 with status := .REJECTED },
            some (.failure (.bidError (.bidTooLow 110)))⟩ ∧
     (workerStep stA 10 bdA1 (some 0)).db.bids = stA.db.bids ∧
     (workerStep stA 10 bdA1 (some 0)).cache = stA.cache ∧
     (workerStep stA 10 bdA1 (some 0)).published = stA.published ∧
     ((workerStep stA 10 bdA1 (some 0)).db = stA.db ∨
       (BidError.bidTooLow 110 = .auctionEnded ∧
        ∃ a, fetchAuction stA.db bdA1.auction_id = some a ∧
          a.status = .ACTIVE ∧
          (workerStep stA 10 bdA1 (some 0)).db =
            setAuction stA.db { a with status := .ENDED }))) :=
  ⟨rfl, by decide,
   rejected_request_no_side_effects stA 10 bdA1 0 (.bidTooLow 110)
     ⟨bdA1, none⟩ rfl (by decide)⟩

/-- Replacing a row keeps the table keyed by primary key. -/
theorem WFDB_setAuction (db : DB) (a : Auction) (hwf : WFDB db) :
    WFDB (setAuction db a) := by
  intro i r hr
  simp only [setAuction] at hr
  split at hr
  next hi => cases hr; exact hi.symm
  next => exact hwf i r hr

/-- Replacing a row does not touch the record list. -/
theorem bidsFor_setAuction (db : DB) (a : Auction) (aid : Nat) :
    bidsFor (setAuction db a) aid = bidsFor db aid := rfl

/-- Inserting a record appends to the auction's record list exactly
when the record belongs to it. -/
theorem bidsFor_insertBid (db : DB) (b : Bid) (aid : Nat) :
    bidsFor (insertBid db b) aid =
      bidsFor db aid ++ if b.auction_id = aid then [b] else [] := by
  by_cases hb : b.auction_id = aid <;>
    simp [bidsFor, insertBid, List.filter_append, hb]

/-- The most recent record of a list extended on the right. -/
theorem lastAmount_concat (l : List Bid) (b : Bid) (p0 : Int) :
    lastAmount (l ++ [b]) p0 = b.bid_amount := by
  simp [lastAmount, List.getLast?_concat]

/-- One worker iteration preserves the §3 record-count/price invariant
of every auction. -/
theorem priceInvariant_step (st : SysState) (now : Nat) (bd : BidData)
    (lk : Option Nat) (aid : Nat) (p0 : Int)
    (h : priceInvariant st.db aid p0) :
    priceInvariant (workerStep st now bd lk).db aid p0 := by
  obtain ⟨hwf, hrow⟩ := h
  cases lk with
  | none => exact ⟨hwf, hrow⟩
  | some n =>
    rcases hpb : process_bid st.db now bd with ⟨db', res⟩
    have h1 : (process_bid st.db now bd).1 = db' := by rw [hpb]
    have hdb : (workerStep st now bd (some n)).db = db' := by
      unfold workerStep
      rw [hpb]
      cases res <;> rfl
    rw [hdb]
    rcases process_bid_cases st.db now bd with ⟨ha, _⟩ | ⟨a, hf, _, _, _, ha⟩ |
      ⟨a, hf, _, _, _, _, hok, ha⟩
    · rw [h1] at ha
      rw [ha]
      exact ⟨hwf, hrow⟩
    · -- expired-auction transition: the row keeps its price and counter
      rw [h1] at ha
      subst ha
      have haid : a.auction_id = bd.auction_id := hwf _ _ hf
      refine ⟨WFDB_setAuction _ _ hwf, fun r hr => ?_⟩
      simp only [setAuction] at hr
      split at hr
      next hi =>
        cases hr
        have haa : st.db.auctions aid = some a := by
          rw [hi, haid]; exact hf
        obtain ⟨hlen, hprice⟩ := hrow a haa
        exact ⟨hlen, hprice⟩
      next => exact hrow r hr
    · -- accepted bid: one new record, counter bumped, price updated
      rw [h1] at ha
      subst ha
      have haid : a.auction_id = bd.auction_id := hwf _ _ hf
      refine ⟨fun i r hr => WFDB_setAuction _ _ hwf i r hr, fun r hr => ?_⟩
      have hbids := bidsFor_insertBid
        (setAuction st.db
          { a with current_price := bd.bid_amount
                   current_winner_id := some bd.user_id
                   total_bids := a.total_bids + 1 })
        { auction_id := bd.auction_id, user_id := bd.user_id
          bid_amount := bd.bid_amount, previous_price := a.current_price } aid
      replace hr : (setAuction st.db
          { a with current_price := bd.bid_amount
                   current_winner_id := some bd.user_id
                   total_bids := a.total_bids + 1 }).auctions aid = some r := hr
      simp only [setAuction] at hr
      by_cases hcase : aid = bd.auction_id
      · rw [if_pos (by simpa [haid] using hcase)] at hr
        cases hr
        have haa : st.db.auctions aid = some a := by
          rw [hcase]; exact hf
        obtain ⟨hlen, _⟩ := hrow a haa
        rw [show bidsFor (insertBid (setAuction st.db
          { a with current_price := bd.bid_amount
                   current_winner_id := some bd.user_id
                   total_bids := a.total_bids + 1 })
          { auction_id := bd.auction_id, user_id := bd.user_id
            bid_amount := bd.bid_amount, previous_price := a.current_price }) aid
          = bidsFor st.db aid ++
            [{ auction_id := bd.auction_id, user_id := bd.user_id
               bid_amount := bd.bid_amount, previous_price := a.current_price }]
          from by rw [hbids, if_pos hcase.symm]; rfl]
        constructor
        · simpa using hlen
        · rw [lastAmount_concat]
      · rw [if_neg (by simpa [haid] using hcase)] at hr
        rw [show bidsFor (insertBid (setAuction st.db
          { a with current_price := bd.bid_amount
                   current_winner_id := some bd.user_id
                   total_bids := a.total_bids + 1 })
          { auction_id := bd.auction_id, user_id := bd.user_id
            bid_amount := bd.bid_amount, previous_price := a.current_price }) aid
          = bidsFor st.db aid
          from by rw [hbids, if_neg (fun hx => hcase (hx.symm))]
                  simp [bidsFor_setAuction]]
        exact hrow r hr

/-- The invariant carries over any worker run. -/
theorem priceInvariant_run (steps : List WStep) (st : SysState)
    (aid : Nat) (p0 : Int) (h : priceInvariant st.db aid p0) :
    priceInvariant (runWorker st steps).db aid p0 := by
  induction steps generalizing st with
  | nil => exact h
  | cons s rest ih =>
    exact ih (workerStep st s.now s.bd s.lock)
      (priceInvariant_step st s.now s.bd s.lock aid p0 h)

/-- C3: starting from a well-formed database in which auction `aid` has
no bid records and a zero counter, after any sequence of worker
iterations the number of the auction's bid records equals its
`total_bids` counter, and its current price is the most recently
inserted record's amount (or the initial price `p0` when no record
exists). -/
theorem bid_records_match_counter (st : SysState) (steps : List WStep)
    (aid : Nat) (p0 : Int) (a0 : Auction)
    (hwf : WFDB st.db)
    (h0 : st.db.auctions aid = some a0)
    (hcnt : a0.total_bids = 0)
    (hprice : a0.current_price = p0)
    (hbids : bidsFor st.db aid = []) :
    priceInvariant (runWorker st steps).db aid p0 := by
  apply priceInvariant_run
  refine ⟨hwf, fun a ha => ?_⟩
  rw [h0] at ha
  cases ha
  rw [hbids]
  exact ⟨by simpa using hcnt.symm, by simpa [lastAmount] using hprice⟩

/-- Witness for C3: from Scenario A's fresh auction (zero records, zero
counter, price 100), the invariant holds after a run containing one
accepted bid. -/
theorem bid_records_match_counter_witness :
    (WFDB stA.db ∧ stA.db.auctions 1 = some auctionA ∧
      auctionA.total_bids = 0 ∧ auctionA.current_price = 100 ∧
      bidsFor stA.db 1 = []) ∧
    priceInvariant (runWorker stA [⟨20, bdA2, some 0⟩]).db 1 100 := by
  have hwf : WFDB stA.db := by
    intro i a h
    by_cases hi : i = 1
    · subst hi
      simp only [stA, dbA, if_pos rfl] at h
      cases h
      rfl
    · simp [stA, dbA, hi] at h
  exact ⟨⟨hwf, by decide, by decide, by decide, by decide⟩,
    bid_records_match_counter stA [⟨20, bdA2, some 0⟩] 1 100 auctionA hwf
      (by decide) (by decide) (by decide) (by decide)⟩

/-- Subscribing (`subscribe_to_auction`) does not touch the connection dict. -/
theorem subscribe_dom (st : PubSubState) (aid : Nat) :
    (subscribe_to_auction st aid).dom = st.dom := by
  unfold subscribe_to_auction
  split <;> rfl

/-- Subscribing (`subscribe_to_auction`) does not touch the connection sets. -/
theorem subscribe_conns (st : PubSubState) (aid : Nat) :
    (subscribe_to_auction st aid).conns = st.conns := by
  unfold subscribe_to_auction
  split <;> rfl

/-- Membership in the subscription set after `subscribe_to_auction`. -/
theorem mem_subscribe_subs (st : PubSubState) (aid i : Nat) :
    i ∈ (subscribe_to_auction st aid).subs ↔ i = aid ∨ i ∈ st.subs := by
  unfold subscribe_to_auction
  split
  next h =>
    exact ⟨Or.inr, fun hi => hi.elim (fun he => he ▸ h) id⟩
  next =>
    exact Finset.mem_insert

/-- Unsubscribing (`unsubscribe_from_auction`) does not touch the connection dict. -/
theorem unsubscribe_dom (st : PubSubState) (aid : Nat) :
    (unsubscribe_from_auction st aid).dom = st.dom := by
  unfold unsubscribe_from_auction
  split <;> rfl

/-- Unsubscribing (`unsubscribe_from_auction`) does not touch the connection sets. -/
theorem unsubscribe_conns (st : PubSubState) (aid : Nat) :
    (unsubscribe_from_auction st aid).conns = st.conns := by
  unfold unsubscribe_from_auction
  split <;> rfl

/-- Membership in the subscription set after `unsubscribe_from_auction`. -/
theorem mem_unsubscribe_subs (st : PubSubState) (aid i : Nat) :
    i ∈ (unsubscribe_from_auction st aid).subs ↔ i ≠ aid ∧ i ∈ st.subs := by
  unfold unsubscribe_from_auction
  split
  next => exact Finset.mem_erase
  next h =>
    exact ⟨fun hi => ⟨fun he => h (he ▸ hi), hi⟩, And.right⟩

/-- The fresh manager satisfies the fanout invariant. -/
theorem psInv_init : PSInv PubSubState.init := by
  refine ⟨fun aid h => absurd h (Finset.not_mem_empty aid),
    fun aid _ => rfl, fun aid => ?_⟩
  simp [PubSubState.init]

/-- Adding a connection preserves the fanout invariant. -/
theorem psInv_add (st : PubSubState) (ws aid : Nat) (h : PSInv st) :
    PSInv (add_connection st ws aid) := by
  obtain ⟨h1, h2, h3⟩ := h
  unfold add_connection
  by_cases hd : aid ∈ st.dom
  · rw [if_pos hd]
    refine ⟨fun i hi => ?_, fun i hi => ?_, fun i => ?_⟩
    · rw [subscribe_conns]
      dsimp only
      rw [subscribe_dom] at hi
      by_cases hia : i = aid
      · subst hia
        simp only [Function.update_same]
        exact Finset.insert_ne_empty _ _
      · rw [Function.update_noteq hia]
        exact h1 i hi
    · rw [subscribe_conns]
      dsimp only
      rw [subscribe_dom] at hi
      have hia : i ≠ aid := fun he => hi (he ▸ hd)
      rw [Function.update_noteq hia]
      exact h2 i hi
    · rw [mem_subscribe_subs, subscribe_dom]
      constructor
      · rintro (rfl | hi)
        · exact hd
        · exact (h3 i).1 hi
      · intro hi
        exact Or.inr ((h3 i).2 hi)
  · rw [if_neg hd]
    refine ⟨fun i hi => ?_, fun i hi => ?_, fun i => ?_⟩
    · rw [subscribe_conns]
      dsimp only
      rw [subscribe_dom] at hi
      by_cases hia : i = aid
      · subst hia
        simp only [Function.update_same]
        exact Finset.insert_ne_empty _ _
      · rw [Function.update_noteq hia]
        exact h1 i (by
          rcases Finset.mem_insert.1 hi with he | hi'
          · exact absurd he hia
          · exact hi')
    · rw [subscribe_conns]
      dsimp only
      rw [subscribe_dom] at hi
      have hia : i ≠ aid := fun he => hi (he ▸ Finset.mem_insert_self aid st.dom)
      rw [Function.update_noteq hia]
      exact h2 i (fun hi' => hi (Finset.mem_insert_of_mem hi'))
    · rw [mem_subscribe_subs, subscribe_dom]
      simp only [Finset.mem_insert]
      constructor
      · rintro (rfl | hi)
        · exact Or.inl rfl
        · exact Or.inr ((h3 i).1 hi)
      · rintro (rfl | hi)
        · exact Or.inl rfl
        · exact Or.inr ((h3 i).2 hi)

/-- Removing a connection preserves the fanout invariant. -/
theorem psInv_remove (st : PubSubState) (ws aid : Nat) (h : PSInv st) :
    PSInv (remove_connection st ws aid) := by
  obtain ⟨h1, h2, h3⟩ := h
  unfold remove_connection
  by_cases hd : aid ∈ st.dom
  · rw [if_pos hd]
    by_cases hs : (st.conns aid).erase ws = ∅
    · rw [if_pos hs]
      refine ⟨fun i hi => ?_, fun i hi => ?_, fun i => ?_⟩
      · rw [unsubscribe_conns]
        dsimp only
        rw [unsubscribe_dom] at hi
        obtain ⟨hia, hi'⟩ := Finset.mem_erase.1 hi
        rw [Function.update_noteq hia]
        exact h1 i hi'
      · rw [unsubscribe_conns]
        dsimp only
        rw [unsubscribe_dom] at hi
        by_cases hia : i = aid
        · subst hia
          simp only [Function.update_same]
        · rw [Function.update_noteq hia]
          exact h2 i (fun hi' => hi (Finset.mem_erase.2 ⟨hia, hi'⟩))
      · rw [mem_unsubscribe_subs, unsubscribe_dom]
        simp only [Finset.mem_erase]
        exact ⟨fun ⟨hia, hi⟩ => ⟨hia, (h3 i).1 hi⟩,
          fun ⟨hia, hi⟩ => ⟨hia, (h3 i).2 hi⟩⟩
    · rw [if_neg hs]
      refine ⟨fun i hi => ?_, fun i hi => ?_, h3⟩
      · dsimp only at hi ⊢
        by_cases hia : i = aid
        · subst hia
          simpa only [Function.update_same] using hs
        · rw [Function.update_noteq hia]
          exact h1 i hi
      · dsimp only at hi ⊢
        have hia : i ≠ aid := fun he => hi (he ▸ hd)
        rw [Function.update_noteq hia]
        exact h2 i hi
  · rw [if_neg hd]
    exact ⟨h1, h2, h3⟩

/-- Every state reachable by local-observer operations satisfies the
fanout invariant. -/
theorem psInv_run (ops : List PSOp) : PSInv (psRun ops) := by
  suffices h : ∀ st, PSInv st → PSInv (ops.foldl psStep st) from
    h PubSubState.init psInv_init
  induction ops with
  | nil => exact fun st h => h
  | cons op rest ih =>
    intro st h
    cases op with
    | add ws aid => exact ih _ (psInv_add st ws aid h)
    | remove ws aid => exact ih _ (psInv_remove st ws aid h)

/-- C9: in every state the fanout manager reaches under any sequence of
`add_connection`/`remove_connection` calls, the process is subscribed
to an auction's channel exactly when at least one local observer is
registered for that auction — the first `add_connection` for an
auction subscribes, and removing its last observer unsubscribes. -/
theorem fanout_subscribed_iff_observer (ops : List PSOp) (aid : Nat) :
    aid ∈ (psRun ops).subs ↔ ∃ ws, registered (psRun ops) ws aid := by
  obtain ⟨h1, h2, h3⟩ := psInv_run ops
  constructor
  · intro hs
    have hd := (h3 aid).1 hs
    obtain ⟨ws, hws⟩ := Finset.nonempty_iff_ne_empty.2 (h1 aid hd)
    exact ⟨ws, hd, hws⟩
  · rintro ⟨ws, hd, _⟩
    exact (h3 aid).2 hd

end AuctionSys
